import Mathlib

/-!
# nudgeme_backend: exchange handlers, cipher helpers and audio export

A shallow embedding of `src/handlers.go` and `src/routes.go`.

* Handlers are functions from the bound request and the data-source state to
  the handler's result and the new state.  The `DataSource` interface is a
  record of state transformers; `recording` wraps any data source so that the
  calls a handler makes can be read back.
* `refStore` is a reference data source following sections 4.1 and 4.3 of the
  specification (the repository's own implementation is not among the
  sources).
* `crypto/aes` and `crypto/cipher` are taken as a record `GCM` (seal / open);
  the key-size test of `aes.NewCipher` and the 12-byte nonce of
  `cipher.NewGCM` are written out.
* `export` runs on an explicit file-system state with deferred calls.
-/

set_option autoImplicit false

namespace Nudgeme

/-! ## Basic types -/

/-- Errors are carried as their text. -/
abbrev Err := String

/-- One byte. -/
abbrev Byte := Fin 256

/-- Go `[]byte` and Go `string` seen as a byte sequence. -/
abbrev Bytes := List Byte

deriving instance DecidableEq for Except

/-- `User` of models.go. -/
structure User where
  Identifier : String
  Password : String
  deriving DecidableEq, Repr

/-- `NewMessageJSON` of models.go; `Data` is the opaque `interface{}` payload. -/
structure NewMessageJSON (Data : Type) where
  Identifier_from : String
  Password : String
  Identifier_to : String
  Data : Data

/-- Modelled from the spec: the element type of what `GetMessages` hands back
(its declaration is not among the sources), `{sender_id, payload}` of the
Receive output in section 6. -/
structure Message where
  Identifier_from : String
  Data : String
  deriving DecidableEq, Repr

/-- JSON bodies the handlers write. -/
inductive Body where
  | success
  | successExists (found : Bool)
  | failure (reason : String)
  | messages (ms : List Message)
  deriving DecidableEq, Repr

/-- What `c.JSON(status, body)` writes. -/
structure Response where
  status : Nat
  body : Body
  deriving DecidableEq, Repr

/-- Status codes 200..299. -/
def Response.is2xx (r : Response) : Bool :=
  decide (200 ≤ r.status) && decide (r.status < 300)

/-- `http.StatusOK`. -/
def StatusOK : Nat := 200

/-- `http.StatusBadRequest`. -/
def StatusBadRequest : Nat := 400

/-- A data-source call: the returned value or error, and the state afterwards. -/
abbrev DB (σ α : Type) := σ → Except Err α × σ

/-- The `DataSource` interface as the handlers use it (its declaration is not
among the sources; the methods and argument orders are those of the call
sites in handlers.go). -/
structure DataSource (σ : Type) where
  DoesUserExist : String → DB σ Bool
  InsertUser : String → Bytes → DB σ Unit
  isValidPassword : String → String → DB σ Bool
  IsMessagePending : String → String → String → DB σ Bool
  AddMessage : String → String → String → String → Bool → DB σ Unit
  GetMessages : String → String → DB σ (List Message)
  DeleteMessages : String → String → DB σ Unit

/-- A call made on a data source, with its arguments. -/
inductive Call where
  | DoesUserExist (id : String)
  | InsertUser (id : String) (digest : Bytes)
  | isValidPassword (id password : String)
  | IsMessagePending (table sender recipient : String)
  | AddMessage (table sender recipient data : String) (overwrite : Bool)
  | GetMessages (table id : String)
  | DeleteMessages (table id : String)
  deriving DecidableEq, Repr

/-- Run `f` on the first component and append `call` to the log. -/
def logged {σ α : Type} (call : Call) (f : DB σ α) : DB (σ × List Call) α :=
  fun st => ((f st.1).1, ((f st.1).2, st.2 ++ [call]))

/-- The data source `db` with every call appended to a log, oldest first. -/
def recording {σ : Type} (db : DataSource σ) : DataSource (σ × List Call) where
  DoesUserExist id := logged (.DoesUserExist id) (db.DoesUserExist id)
  InsertUser id digest := logged (.InsertUser id digest) (db.InsertUser id digest)
  isValidPassword id pw := logged (.isValidPassword id pw) (db.isValidPassword id pw)
  IsMessagePending t a b := logged (.IsMessagePending t a b) (db.IsMessagePending t a b)
  AddMessage t a b d ow := logged (.AddMessage t a b d ow) (db.AddMessage t a b d ow)
  GetMessages t id := logged (.GetMessages t id) (db.GetMessages t id)
  DeleteMessages t id := logged (.DeleteMessages t id) (db.DeleteMessages t id)

/-- Whether a call is an `AddMessage`. -/
def Call.isAddMessage : Call → Bool
  | .AddMessage _ _ _ _ _ => true
  | _ => false

/-! ## handlers.go -/

/-- `failStatus`: status 400 with `{"success": false, "reason": reason}`. -/
def failStatus (reason : String) : Response :=
  ⟨StatusBadRequest, .failure reason⟩

/-- `handleCheckUser`.  `c` is the outcome of `c.Bind(user)`. -/
def handleCheckUser {σ : Type} (db : DataSource σ) (c : Except Err User) (s : σ) :
    Except Err Response × σ :=
  match c with
  | .error err => (.error err, s)
  | .ok user =>
    match db.DoesUserExist user.Identifier s with
    | (.error err, s1) => (.error err, s1)
    | (.ok found, s1) => (.ok ⟨StatusOK, .successExists found⟩, s1)

/-- `handleAddUser`.  `GenerateFromPassword` stands for
`bcrypt.GenerateFromPassword(_, bcrypt.DefaultCost)` as it answers this call. -/
def handleAddUser {σ : Type} (db : DataSource σ)
    (GenerateFromPassword : String → Except Err Bytes)
    (c : Except Err User) (s : σ) : Except Err Response × σ :=
  match c with
  | .error err => (.error err, s)
  | .ok user =>
    match db.DoesUserExist user.Identifier s with
    | (.error err, s1) => (.error err, s1)
    | (.ok true, s1) => (.ok (failStatus "Identifier already exists."), s1)
    | (.ok false, s1) =>
      match GenerateFromPassword user.Password with
      | .error err => (.error err, s1)
      | .ok digest =>
        match db.InsertUser user.Identifier digest s1 with
        | (.error err, s2) => (.error err, s2)
        | (.ok (), s2) => (.ok ⟨StatusOK, .success⟩, s2)

/-- `handleNewMessage`.  `Marshal` stands for `json.Marshal` on the payload. -/
def handleNewMessage {σ Data : Type} (db : DataSource σ)
    (Marshal : Data → Except Err String) (tableName : String) (overwrite : Bool)
    (c : Except Err (NewMessageJSON Data)) (s : σ) : Except Err Response × σ :=
  match c with
  | .error err => (.error err, s)
  | .ok newMessage =>
    match db.isValidPassword newMessage.Identifier_from newMessage.Password s with
    | (.error err, s1) => (.error err, s1)
    | (.ok false, s1) => (.ok (failStatus "Password doesn't match expected."), s1)
    | (.ok true, s1) =>
      match db.IsMessagePending tableName newMessage.Identifier_from
          newMessage.Identifier_to s1 with
      | (.error err, s2) => (.error err, s2)
      | (.ok isPending, s2) =>
        match Marshal newMessage.Data with
        | .error err => (.error err, s2)
        | .ok toAdd =>
          match db.AddMessage tableName newMessage.Identifier_from
              newMessage.Identifier_to toAdd (overwrite && isPending) s2 with
          | (.error err, s3) => (.error err, s3)
          | (.ok (), s3) => (.ok ⟨StatusOK, .success⟩, s3)

/-- `handleGetMessage`. -/
def handleGetMessage {σ : Type} (db : DataSource σ) (tableName : String)
    (c : Except Err User) (s : σ) : Except Err Response × σ :=
  match c with
  | .error err => (.error err, s)
  | .ok user =>
    match db.isValidPassword user.Identifier user.Password s with
    | (.error err, s1) => (.error err, s1)
    | (.ok false, s1) => (.ok (failStatus "Password doesn't match expected."), s1)
    | (.ok true, s1) =>
      match db.GetMessages tableName user.Identifier s1 with
      | (.error err, s2) => (.error err, s2)
      | (.ok messages, s2) =>
        match db.DeleteMessages tableName user.Identifier s2 with
        | (.error err, s3) => (.error err, s3)
        | (.ok (), s3) => (.ok ⟨StatusOK, .messages messages⟩, s3)

/-! ## routes.go: tables and the four exchange routes -/

/-- `messageTableName`. -/
def messageTableName : String := "unread_messages"

/-- `nudgeTableName`. -/
def nudgeTableName : String := "user_nudge"

/-- Route `POST /user/message` of `setupRoutes`. -/
def routeUserMessage {σ : Type} (mydb : DataSource σ) :=
  handleGetMessage mydb messageTableName

/-- Route `POST /user/message/new` of `setupRoutes`. -/
def routeUserMessageNew {σ Data : Type} (mydb : DataSource σ)
    (Marshal : Data → Except Err String) :=
  handleNewMessage mydb Marshal messageTableName true

/-- Route `POST /user/nudge` of `setupRoutes`. -/
def routeUserNudge {σ : Type} (mydb : DataSource σ) :=
  handleGetMessage mydb nudgeTableName

/-- Route `POST /user/nudge/new` of `setupRoutes`. -/
def routeUserNudgeNew {σ Data : Type} (mydb : DataSource σ)
    (Marshal : Data → Except Err String) :=
  handleNewMessage mydb Marshal nudgeTableName false

/-! ## Reference data source (specification sections 4.1 and 4.3) -/

/-- Modelled from the spec: a pending message of section 3 as the mailbox store
keeps it, `(channel, sender_id, recipient_id, payload)`; the creation time is
the position in the list of rows. -/
structure Row where
  table : String
  sender : String
  recipient : String
  data : String
  deriving DecidableEq, Repr

/-- Modelled from the spec: the state behind the data source, the credential
store of section 4.1 (identifier and password hash) and the mailbox store of
section 4.3 (pending messages, oldest first). -/
structure Store where
  users : List (String × Bytes)
  rows : List Row
  deriving DecidableEq, Repr

/-- Row of channel `t` from `a` to `b`. -/
def Row.isFor (t a b : String) (r : Row) : Bool :=
  r.table == t && r.sender == a && r.recipient == b

/-- Row of channel `t` addressed to `b`. -/
def Row.isTo (t b : String) (r : Row) : Bool :=
  r.table == t && r.recipient == b

/-- The message a row is delivered as. -/
def Row.toMessage (r : Row) : Message := ⟨r.sender, r.data⟩

/-- Stored hash of an identifier. -/
def Store.hashOf (s : Store) (id : String) : Option Bytes :=
  (s.users.find? (fun u => u.1 == id)).map (fun u => u.2)

/-- Payloads pending in channel `t` from `a` to `b`, oldest first. -/
def Store.pending (s : Store) (t a b : String) : List String :=
  (s.rows.filter (Row.isFor t a b)).map (fun r => r.data)

/-- Messages pending in channel `t` for recipient `b`, oldest first. -/
def Store.inbox (s : Store) (t b : String) : List Message :=
  (s.rows.filter (Row.isTo t b)).map Row.toMessage

/-- Modelled from the spec: `Exists(identifier)` of section 4.1, the store's
`DoesUserExist`, true exactly when the identifier has been inserted. -/
def Store.DoesUserExist (id : String) : DB Store Bool :=
  fun s => (.ok (s.users.any (fun u => u.1 == id)), s)

/-- Modelled from the spec: `Insert(identifier, password_hash) -> ok|AlreadyExists`
of section 4.1, the store's `InsertUser`; a second insert leaves the hash as it is. -/
def Store.InsertUser (id : String) (digest : Bytes) : DB Store Unit :=
  fun s =>
    if s.users.any (fun u => u.1 == id) then (.error "AlreadyExists", s)
    else (.ok (), { s with users := s.users ++ [(id, digest)] })

/-- Modelled from the spec: `Verify(identifier, plaintext_password) -> bool` of
section 4.1, the store's `isValidPassword`; `CompareHashAndPassword` is the hash
comparison, an unknown identifier does not verify. -/
def Store.isValidPassword (CompareHashAndPassword : Bytes → String → Bool)
    (id password : String) : DB Store Bool :=
  fun s =>
    match s.hashOf id with
    | none => (.ok false, s)
    | some digest => (.ok (CompareHashAndPassword digest password), s)

/-- Modelled from the spec: `IsPending(channel, sender_id, recipient_id)` of
section 4.3, the store's `IsMessagePending`. -/
def Store.IsMessagePending (t a b : String) : DB Store Bool :=
  fun s => (.ok (s.rows.any (Row.isFor t a b)), s)

/-- Modelled from the spec: `Insert(channel, sender_id, recipient_id, payload,
overwrite)` of section 4.3, the store's `AddMessage`: with `overwrite` the
pending messages of the pair are replaced by the new one, without it the new
one is appended. -/
def Store.AddMessage (t a b data : String) (overwrite : Bool) : DB Store Unit :=
  fun s =>
    (.ok (), { s with rows :=
      (if overwrite then s.rows.filter (fun r => !Row.isFor t a b r) else s.rows)
        ++ [⟨t, a, b, data⟩] })

/-- Modelled from the spec: `FetchAll(channel, recipient_id)` of section 4.3, the
store's `GetMessages`: every pending message for the recipient, in arrival order. -/
def Store.GetMessages (t b : String) : DB Store (List Message) :=
  fun s => (.ok (s.inbox t b), s)

/-- Modelled from the spec: `DeleteAll(channel, recipient_id)` of section 4.3, the
store's `DeleteMessages`. -/
def Store.DeleteMessages (t b : String) : DB Store Unit :=
  fun s => (.ok (), { s with rows := s.rows.filter (fun r => !Row.isTo t b r) })

/-- Modelled from the spec: the data source of sections 4.1 and 4.3 (the
repository's implementation of `DataSource` is not among the sources). -/
def refStore (CompareHashAndPassword : Bytes → String → Bool) : DataSource Store where
  DoesUserExist := Store.DoesUserExist
  InsertUser := Store.InsertUser
  isValidPassword := Store.isValidPassword CompareHashAndPassword
  IsMessagePending := Store.IsMessagePending
  AddMessage := Store.AddMessage
  GetMessages := Store.GetMessages
  DeleteMessages := Store.DeleteMessages

/-- A hash comparison used in the examples: hash `[1]` belongs to password
"pw1", hash `[2]` to password "pw2". -/
def demoCompare (digest : Bytes) (password : String) : Bool :=
  digest == [1] && password == "pw1" || digest == [2] && password == "pw2"

/-- A hash function used in the examples, with the length limit of
`bcrypt.GenerateFromPassword`: a password of more than 72 bytes is refused,
any other gets the hash `[1]`. -/
def demoGenerate (password : String) : Except Err Bytes :=
  if password.utf8ByteSize > 72 then .error "bcrypt: password length exceeds 72 bytes"
  else .ok [1]

/-- A password of 73 bytes. -/
def longPassword : String :=
  "aaaaaaaaaaaaaaaaaaaaaaaaaaaaaaaaaaaaaaaaaaaaaaaaaaaaaaaaaaaaaaaaaaaaaaaaa"

/-- A request to one of the exchange handlers, with what the libraries answer
while it is served. -/
inductive Request (Data : Type) where
  | checkUser (c : Except Err User)
  | addUser (GenerateFromPassword : String → Except Err Bytes) (c : Except Err User)
  | newMessage (Marshal : Data → Except Err String) (tableName : String)
      (overwrite : Bool) (c : Except Err (NewMessageJSON Data))
  | getMessage (tableName : String) (c : Except Err User)

/-- Serve one request. -/
def serve {σ Data : Type} (db : DataSource σ) : Request Data → σ → Except Err Response × σ
  | .checkUser c => handleCheckUser db c
  | .addUser g c => handleAddUser db g c
  | .newMessage m t ow c => handleNewMessage db m t ow c
  | .getMessage t c => handleGetMessage db t c

/-- State after serving the requests one after the other. -/
def serveAll {σ Data : Type} (db : DataSource σ) : List (Request Data) → σ → σ
  | [], s => s
  | r :: rs, s => serveAll db rs (serve db r s).2

/-! ## Cipher helpers (routes.go `EncryptAES`, handlers.go `DecryptAES`) -/

/-- How a Go call ends: it returns, it panics, or the process exits
(`log.Fatal`), in which case deferred calls do not run. -/
inductive Run (α : Type) where
  | ret (a : α)
  | panic (msg : String)
  | exit (code : Nat)
  deriving DecidableEq, Repr

/-- AES-GCM of `crypto/cipher` under a key `aes.NewCipher` accepts:
`Seal key nonce plaintext` is what `gcm.Seal(nil, nonce, plaintext, nil)`
yields (the sealed box), `Open key nonce box` what `gcm.Open(nil, nonce, box, nil)`
yields. -/
structure GCM where
  Seal : Bytes → Bytes → Bytes → Bytes
  Open : Bytes → Bytes → Bytes → Except Err Bytes

/-- Key sizes `aes.NewCipher` accepts: 16, 24 or 32 bytes. -/
def validKeySize (secret : Bytes) : Bool :=
  secret.length == 16 || secret.length == 24 || secret.length == 32

/-- `gcm.NonceSize()` of `cipher.NewGCM`: 12. -/
def NonceSize : Nat := 12

/-- `EncryptAES`.  `randRead n` is `io.ReadFull(rand.Reader, _)` on an
`n`-byte buffer.  The error of `aes.NewCipher` is dropped, so a rejected key
reaches `cipher.NewGCM` as a nil block and the call panics. -/
def EncryptAES (gcm : GCM) (randRead : Nat → Except Err Bytes)
    (plainData secret : Bytes) : Run Bytes :=
  if validKeySize secret then
    match randRead NonceSize with
    | .error _ => .ret []
    | .ok nonce => .ret (nonce ++ gcm.Seal secret nonce plainData)
  else .panic "invalid memory address or nil pointer dereference"

/-- `DecryptAES`.  The only result is `plainData`; on an error of
`aes.NewCipher` or `gcm.Open` it is returned nil.  The slices
`cipherData[:nonceSize]`, `cipherData[nonceSize:]` panic when fewer than
`nonceSize` bytes are given. -/
def DecryptAES (gcm : GCM) (cipherData secret : Bytes) : Run Bytes :=
  if validKeySize secret then
    if cipherData.length < NonceSize then .panic "slice bounds out of range"
    else
      match gcm.Open secret (cipherData.take NonceSize) (cipherData.drop NonceSize) with
      | .error _ => .ret []
      | .ok plainData => .ret plainData
  else .ret []

/-- The plaintext `gcm.Open` authenticates for a blob under a secret, if any. -/
def authenticated (gcm : GCM) (secret cipherData : Bytes) : Option Bytes :=
  if validKeySize secret && decide (NonceSize ≤ cipherData.length) then
    match gcm.Open secret (cipherData.take NonceSize) (cipherData.drop NonceSize) with
    | .error _ => none
    | .ok plainData => some plainData
  else none

/-- Checksum used by `toyGCM`. -/
def toyTag (key nonce text : Bytes) : Bytes :=
  List.replicate 16 ((key ++ nonce ++ text).foldl (fun a b => a + b) 0)

/-- A stand-in for AES-GCM used to evaluate the code on concrete inputs: the
box is the text followed by a 16-byte checksum of key, nonce and text. -/
def toyGCM : GCM where
  Seal key nonce text := text ++ toyTag key nonce text
  Open key nonce box :=
    if 16 ≤ box.length ∧
        box.drop (box.length - 16) = toyTag key nonce (box.take (box.length - 16)) then
      .ok (box.take (box.length - 16))
    else .error "cipher: message authentication failed"

/-! ## add-friend link check (handlers.go) -/

/-- The bytes of an ASCII literal. -/
def ascii (s : String) : Bytes := s.toList.map (fun c => Fin.ofNat c.toNat)

/-- `strings.HasPrefix`. -/
def HasPrefix (s p : Bytes) : Bool :=
  decide (p.length ≤ s.length) && (s.take p.length == p)

/-- `strings.HasSuffix`. -/
def HasSuffix (s x : Bytes) : Bool :=
  decide (x.length ≤ s.length) && (s.drop (s.length - x.length) == x)

/-- Header line required of a key. -/
def beginMarker : Bytes := ascii "-----BEGIN RSA PUBLIC KEY-----"

/-- Footer line required of a key. -/
def endMarker : Bytes := ascii "-----END RSA PUBLIC KEY-----"

/-- `isValidIDAndKey`. -/
def isValidIDAndKey (id key : Bytes) : Bool :=
  if id.length == 0 || key.length == 0 then false
  else if key.length < 62 then false
  else HasPrefix key beginMarker && HasSuffix key endMarker

/-- `isValidIDAndKey` with the `len(key) == 0` test left out. -/
def isValidIDAndKeyNoEmptyTest (id key : Bytes) : Bool :=
  if id.length == 0 then false
  else if key.length < 62 then false
  else HasPrefix key beginMarker && HasSuffix key endMarker

/-- `AddFriendTemplate`. -/
structure AddFriendTemplate where
  Identifier : Bytes
  PubKey : Bytes
  deriving DecidableEq, Repr

/-- What `handleAddFriend` answers. -/
inductive FriendResponse where
  | render (status : Nat) (template : String) (data : AddFriendTemplate)
  | text (status : Nat) (s : String)
  deriving DecidableEq, Repr

/-- `handleAddFriend` on the query parameters `identifier` and `pubKey`. -/
def handleAddFriend (identifier pubKey : Bytes) : FriendResponse :=
  if isValidIDAndKey identifier pubKey then
    .render StatusOK "add_friend.html" ⟨identifier, pubKey⟩
  else .text StatusBadRequest "That link doesn't look right."

/-! ## Audio export (handlers.go `export`) on an explicit file system -/

/-- Content of a file of the working directory: plain bytes, or a zip archive
given by its entries in the order they were added. -/
inductive FileData where
  | bytes (b : Bytes)
  | archive (entries : List (String × Bytes))
  deriving DecidableEq, Repr

/-- File operations `export` performs. -/
inductive Op where
  | create
  | readDir
  | readFile
  | writeFile
  | openFile
  | zipCreate
  | copy
  | remove
  deriving DecidableEq, Repr

/-- File-system state: the files of the working directory, the entries of
`./Audio` in the order `ioutil.ReadDir` lists them (`none`: the directory
cannot be read), and the operations the environment makes fail (a name that
is a directory, a full disk, missing rights), each with the name it is
applied to.

A blob named like the archive itself would be written over the open archive
file; the model does not follow that case and the theorems exclude it. -/
structure FS where
  cwd : List (String × FileData)
  audio : Option (List (String × Bytes))
  faults : List (Op × String)
  deriving DecidableEq, Repr

/-- `zipName` of `export`. -/
def zipName : String := "archive.zip"

/-- Whether the environment makes `op` fail on `name`. -/
def FS.fails (fs : FS) (op : Op) (name : String) : Bool :=
  fs.faults.contains (op, name)

/-- Content of the working-directory file `name`. -/
def FS.lookup (fs : FS) (name : String) : Option FileData :=
  (fs.cwd.find? (fun f => f.1 == name)).map (fun f => f.2)

/-- Create or replace the working-directory file `name`. -/
def FS.put (fs : FS) (name : String) (d : FileData) : FS :=
  { fs with cwd := fs.cwd.filter (fun f => f.1 != name) ++ [(name, d)] }

/-- `os.Create(name)`: an empty file, here the empty archive. -/
def FS.create (fs : FS) (name : String) : Except Err FS :=
  if fs.fails .create name then .error "create failed"
  else .ok (fs.put name (.archive []))

/-- `ioutil.ReadDir(pwd + "/Audio")`: the names of the entries. -/
def FS.readDir (fs : FS) : Except Err (List String) :=
  if fs.fails .readDir "Audio" then .error "readdir failed"
  else
    match fs.audio with
    | none => .error "no such file or directory"
    | some entries => .ok (entries.map (fun e => e.1))

/-- `ioutil.ReadFile("Audio/" + name)`. -/
def FS.readFile (fs : FS) (name : String) : Except Err Bytes :=
  if fs.fails .readFile name then .error "read failed"
  else
    match fs.audio with
    | none => .error "no such file or directory"
    | some entries =>
      match entries.find? (fun e => e.1 == name) with
      | none => .error "no such file or directory"
      | some e => .ok e.2

/-- `WriteFile(content, name)` of routes.go, `ioutil.WriteFile(name, content, 0644)`. -/
def FS.WriteFile (fs : FS) (content : Bytes) (name : String) : Except Err FS :=
  if fs.fails .writeFile name then .error "write failed"
  else .ok (fs.put name (.bytes content))

/-- `os.Open(name)` followed by reading the file to its end. -/
def FS.openFile (fs : FS) (name : String) : Except Err Bytes :=
  if fs.fails .openFile name then .error "open failed"
  else
    match fs.lookup name with
    | some (.bytes b) => .ok b
    | _ => .error "open failed"

/-- `os.Remove(name)`; its error is dropped by `export`. -/
def FS.remove (fs : FS) (name : String) : FS :=
  if fs.fails .remove name then fs
  else { fs with cwd := fs.cwd.filter (fun f => f.1 != name) }

/-- Run the deferred `os.Remove` calls, the most recently deferred first. -/
def runDeferred : List String → FS → FS
  | [], fs => fs
  | name :: rest, fs => runDeferred rest (fs.remove name)

/-- What `export` holds while it loops: the file system, the entries written
through `zipWriter`, and the names whose `os.Remove` has been deferred (most
recent first). -/
structure ExportState where
  fs : FS
  zip : List (String × Bytes)
  deferred : List String
  deriving DecidableEq, Repr

/-- One pass of the loop body of `export` for the entry `name` (the
`.DS_Store` test is in `exportLoop`).  The two `defer` statements stand at the
end of the body, so they are reached only when every step before succeeded.
An entry added to the archive is written through to the archive file at once
(the buffer of `zip.Writer` is left out). -/
def exportEntry (gcm : GCM) (secret : Bytes) (name : String) (st : ExportState) :
    Run Unit × ExportState :=
  match st.fs.readFile name with
  | .error err => (.panic err, st)
  | .ok encryptedImage =>
    match DecryptAES gcm encryptedImage secret with
    | .panic msg => (.panic msg, st)
    | .exit code => (.exit code, st)
    | .ret plainImage =>
      match st.fs.WriteFile plainImage name with
      | .error _ => (.exit 1, st)
      | .ok fs1 =>
        match fs1.openFile name with
        | .error err => (.panic err, { st with fs := fs1 })
        | .ok content =>
          if fs1.fails .zipCreate name then (.panic "zip create failed", { st with fs := fs1 })
          else if fs1.fails .copy name then (.panic "copy failed", { st with fs := fs1 })
          else
            (.ret (),
              { fs := fs1.put zipName (.archive (st.zip ++ [(name, content)])),
                zip := st.zip ++ [(name, content)],
                deferred := name :: st.deferred })

/-- The loop of `export` over the listed names. -/
def exportLoop (gcm : GCM) (secret : Bytes) : List String → ExportState → Run Unit × ExportState
  | [], st => (.ret (), st)
  | name :: rest, st =>
    if name != ".DS_Store" then
      match exportEntry gcm secret name st with
      | (.ret (), st1) => exportLoop gcm secret rest st1
      | (.panic msg, st1) => (.panic msg, st1)
      | (.exit code, st1) => (.exit code, st1)
    else exportLoop gcm secret rest st

/-- `export` of handlers.go (the name is reserved in Lean, hence the capital)
with query parameter `secret`.  The result is how the call ends
(on return: the content `c.Attachment(zipName, zipName)` reads, if the file is
there) and the file system afterwards.  A panic runs the calls deferred so
far; `log.Fatal` ends the process without running them.  `os.Remove(zipName)`
is deferred only after the loop and `zipWriter.Close()`. -/
def Export (gcm : GCM) (secret : Bytes) (fs : FS) : Run (Option FileData) × FS :=
  match fs.create zipName with
  | .error err => (.panic err, fs)
  | .ok fs1 =>
    match fs1.readDir with
    | .error _ => (.exit 1, fs1)
    | .ok files =>
      match exportLoop gcm secret files ⟨fs1, [], []⟩ with
      | (.ret (), st) => (.ret (st.fs.lookup zipName), runDeferred (zipName :: st.deferred) st.fs)
      | (.panic msg, st) => (.panic msg, runDeferred st.deferred st.fs)
      | (.exit code, st) => (.exit code, st.fs)

/-- A 32-byte secret used in the examples. -/
def key32 : Bytes := List.replicate 32 7

/-- A 3-byte secret, a length `aes.NewCipher` rejects. -/
def key3 : Bytes := [1, 2, 3]

/-- A blob sealed by `toyGCM` under `key32` with an all-zero nonce: plaintext 10, 20, 30. -/
def goodBlob : Bytes := List.replicate 12 0 ++ toyGCM.Seal key32 (List.replicate 12 0) [10, 20, 30]

/-- The empty plaintext sealed by `toyGCM` under `key32` with an all-zero nonce. -/
def emptyBlob : Bytes := List.replicate 12 0 ++ toyGCM.Seal key32 (List.replicate 12 0) []

/-- Thirty zero bytes: long enough to be split, not sealed under any key of
the examples. -/
def badBlob : Bytes := List.replicate 30 0

/-- A working directory with `Audio/a.m4a` sealed and `Audio/b.m4a` three bytes long. -/
def fsShortBlob : FS := ⟨[], some [("a.m4a", goodBlob), ("b.m4a", [1, 2, 3])], []⟩

/-- A working directory with one sealed blob, where copying it into the archive fails. -/
def fsCopyFails : FS := ⟨[], some [("a.m4a", goodBlob)], [(.copy, "a.m4a")]⟩

/-- A working directory with a sealed blob and a blob that fails the integrity check. -/
def fsTampered : FS := ⟨[], some [("a.m4a", goodBlob), ("b.m4a", badBlob)], []⟩

/-! ## Theorems -/

/-! ### Calls made by the exchange handlers -/

theorem handleNewMessage_run {σ Data : Type} (db : DataSource σ)
    (Marshal : Data → Except Err String) (tableName : String) (overwrite : Bool)
    (m : NewMessageJSON Data) (s s1 s2 s3 : σ) (log : List Call) (p : Bool) (j : String)
    (h1 : db.isValidPassword m.Identifier_from m.Password s = (.ok true, s1))
    (h2 : db.IsMessagePending tableName m.Identifier_from m.Identifier_to s1 = (.ok p, s2))
    (h3 : Marshal m.Data = .ok j)
    (h4 : db.AddMessage tableName m.Identifier_from m.Identifier_to j (overwrite && p) s2
      = (.ok (), s3)) :
    handleNewMessage (recording db) Marshal tableName overwrite (.ok m) (s, log)
      = (.ok ⟨StatusOK, .success⟩,
          (s3, log ++ [Call.isValidPassword m.Identifier_from m.Password,
            Call.IsMessagePending tableName m.Identifier_from m.Identifier_to,
            Call.AddMessage tableName m.Identifier_from m.Identifier_to j
              (overwrite && p)])) := by
  simp [handleNewMessage, recording, logged, h1, h2, h3, h4]

theorem nudge_never_overwrites {σ Data : Type} (db : DataSource σ)
    (Marshal : Data → Except Err String) (c : Except Err (NewMessageJSON Data))
    (s : σ) (t a b d : String) (ow : Bool)
    (h : Call.AddMessage t a b d ow ∈
      (routeUserNudgeNew (recording db) Marshal c (s, [])).2.2) : ow = false := by
  cases c with
  | error e => simp [routeUserNudgeNew, handleNewMessage] at h
  | ok m =>
    simp only [routeUserNudgeNew, handleNewMessage, recording, logged] at h
    generalize db.isValidPassword m.Identifier_from m.Password s = x1 at h
    obtain ⟨r1, s1⟩ := x1
    rcases r1 with e | v
    · simp at h
    · cases v
      · simp at h
      · simp only at h
        generalize db.IsMessagePending nudgeTableName m.Identifier_from m.Identifier_to s1
          = x2 at h
        obtain ⟨r2, s2⟩ := x2
        rcases r2 with e | isPending
        · simp at h
        · simp only at h
          cases hm : Marshal m.Data with
          | error e => simp [hm] at h
          | ok toAdd =>
            simp only [hm] at h
            generalize db.AddMessage nudgeTableName m.Identifier_from m.Identifier_to toAdd
              (false && isPending) s2 = x3 at h
            obtain ⟨r3, s3⟩ := x3
            rcases r3 with e | u
            · simp at h
              exact h.2.2.2.2
            · simp at h
              exact h.2.2.2.2

/-- C2: when the sender's credentials verify and `IsMessagePending`, the
serialization and `AddMessage` succeed, `handleNewMessage` answers success
and makes exactly three calls, the last being the one `AddMessage` call, with
the request's sender, recipient, the serialized payload and the flag
`overwrite && isPending`; on the nudge route every `AddMessage` call of any
request carries the flag `false`. -/
theorem handleNewMessage_overwrite_flag {σ Data : Type} (db : DataSource σ)
    (Marshal : Data → Except Err String) (tableName : String) (overwrite : Bool)
    (m : NewMessageJSON Data) (s s1 s2 s3 : σ) (p : Bool) (j : String)
    (h1 : db.isValidPassword m.Identifier_from m.Password s = (.ok true, s1))
    (h2 : db.IsMessagePending tableName m.Identifier_from m.Identifier_to s1 = (.ok p, s2))
    (h3 : Marshal m.Data = .ok j)
    (h4 : db.AddMessage tableName m.Identifier_from m.Identifier_to j (overwrite && p) s2
      = (.ok (), s3)) :
    handleNewMessage (recording db) Marshal tableName overwrite (.ok m) (s, [])
        = (.ok ⟨StatusOK, .success⟩,
            (s3, [Call.isValidPassword m.Identifier_from m.Password,
              Call.IsMessagePending tableName m.Identifier_from m.Identifier_to,
              Call.AddMessage tableName m.Identifier_from m.Identifier_to j
                (overwrite && p)]))
      ∧ (handleNewMessage (recording db) Marshal tableName overwrite (.ok m)
            (s, [])).2.2.filter Call.isAddMessage
          = [Call.AddMessage tableName m.Identifier_from m.Identifier_to j (overwrite && p)]
      ∧ (∀ (c : Except Err (NewMessageJSON Data)) (s0 : σ) (t a b d : String) (ow : Bool),
          Call.AddMessage t a b d ow ∈
            (routeUserNudgeNew (recording db) Marshal c (s0, [])).2.2 → ow = false) := by
  have hrun := handleNewMessage_run db Marshal tableName overwrite m s s1 s2 s3 [] p j
    h1 h2 h3 h4
  refine ⟨by simpa using hrun, ?_, ?_⟩
  · rw [hrun]
    simp [Call.isAddMessage]
  · intro c s0 t a b d ow h
    exact nudge_never_overwrites db Marshal c s0 t a b d ow h

/-- C2 at a concrete input: "alice" sends to "bob" on the message route while
one message from her is pending; the one `AddMessage` call carries `true`. -/
theorem handleNewMessage_overwrite_flag_witness :
    handleNewMessage (recording (refStore demoCompare))
        (fun d : String => Except.ok d) messageTableName true
        (.ok ⟨"alice", "pw1", "bob", "two"⟩)
        (⟨[("alice", [1])], [⟨messageTableName, "alice", "bob", "one"⟩]⟩, [])
      = (.ok ⟨StatusOK, .success⟩,
          (⟨[("alice", [1])], [⟨messageTableName, "alice", "bob", "two"⟩]⟩,
            [Call.isValidPassword "alice" "pw1",
              Call.IsMessagePending messageTableName "alice" "bob",
              Call.AddMessage messageTableName "alice" "bob" "two" true])) :=
  (handleNewMessage_overwrite_flag (refStore demoCompare)
    (fun d : String => Except.ok d) messageTableName true
    ⟨"alice", "pw1", "bob", "two"⟩
    ⟨[("alice", [1])], [⟨messageTableName, "alice", "bob", "one"⟩]⟩
    ⟨[("alice", [1])], [⟨messageTableName, "alice", "bob", "one"⟩]⟩
    ⟨[("alice", [1])], [⟨messageTableName, "alice", "bob", "one"⟩]⟩
    ⟨[("alice", [1])], [⟨messageTableName, "alice", "bob", "two"⟩]⟩
    true "two" (by decide) (by decide) rfl (by decide)).1

/-! ### Rejected credentials -/

theorem refStore_isValidPassword_state (cmp : Bytes → String → Bool) (id pw : String)
    (st : Store) : ((refStore cmp).isValidPassword id pw st).2 = st := by
  simp only [refStore, Store.isValidPassword]
  split <;> rfl

/-- C4: when the credential check answers false, `handleNewMessage` and
`handleGetMessage` answer status 400 (not 2xx) with `{success:false, reason}`,
the only data-source call made is that `isValidPassword`, the state is the one
that call left, and over the reference store the state is unchanged. -/
theorem invalid_credentials_no_effect {σ Data : Type} (db : DataSource σ)
    (id pw : String) (s s1 : σ)
    (h : db.isValidPassword id pw s = (.ok false, s1)) :
    (∀ (Marshal : Data → Except Err String) (t : String) (ow : Bool) (rcpt : String) (d : Data),
        handleNewMessage (recording db) Marshal t ow (.ok ⟨id, pw, rcpt, d⟩) (s, [])
          = (.ok ⟨StatusBadRequest, .failure "Password doesn't match expected."⟩,
              (s1, [Call.isValidPassword id pw])))
      ∧ (∀ t : String,
        handleGetMessage (recording db) t (.ok ⟨id, pw⟩) (s, [])
          = (.ok ⟨StatusBadRequest, .failure "Password doesn't match expected."⟩,
              (s1, [Call.isValidPassword id pw])))
      ∧ Response.is2xx ⟨StatusBadRequest, .failure "Password doesn't match expected."⟩ = false
      ∧ (∀ (cmp : Bytes → String → Bool) (st : Store),
          ((refStore cmp).isValidPassword id pw st).1 = .ok false →
          (∀ (Marshal : Data → Except Err String) (t : String) (ow : Bool) (rcpt : String)
              (d : Data),
            handleNewMessage (refStore cmp) Marshal t ow (.ok ⟨id, pw, rcpt, d⟩) st
              = (.ok ⟨StatusBadRequest, .failure "Password doesn't match expected."⟩, st))
          ∧ (∀ t : String,
            handleGetMessage (refStore cmp) t (.ok ⟨id, pw⟩) st
              = (.ok ⟨StatusBadRequest, .failure "Password doesn't match expected."⟩, st))) := by
  refine ⟨?_, ?_, by decide, ?_⟩
  · intro Marshal t ow rcpt d
    simp [handleNewMessage, recording, logged, h, failStatus]
  · intro t
    simp [handleGetMessage, recording, logged, h, failStatus]
  · intro cmp st hv
    have hst := refStore_isValidPassword_state cmp id pw st
    have hpair : (refStore cmp).isValidPassword id pw st = (.ok false, st) :=
      Prod.ext hv hst
    constructor
    · intro Marshal t ow rcpt d
      simp [handleNewMessage, hpair, failStatus]
    · intro t
      simp [handleGetMessage, hpair, failStatus]

/-- C4 at a concrete input: "alice" with a wrong password asks for her messages;
one message from "bob" is pending and stays undisclosed and pending. -/
theorem invalid_credentials_no_effect_witness :
    (handleGetMessage (recording (refStore demoCompare))
        messageTableName (.ok ⟨"alice", "wrong"⟩)
        (⟨[("alice", [1])], [⟨messageTableName, "bob", "alice", "hello"⟩]⟩, []))
      = (.ok ⟨StatusBadRequest, .failure "Password doesn't match expected."⟩,
          (⟨[("alice", [1])], [⟨messageTableName, "bob", "alice", "hello"⟩]⟩,
            [Call.isValidPassword "alice" "wrong"])) :=
  (@invalid_credentials_no_effect Store String
    (refStore demoCompare) "alice" "wrong"
    ⟨[("alice", [1])], [⟨messageTableName, "bob", "alice", "hello"⟩]⟩
    ⟨[("alice", [1])], [⟨messageTableName, "bob", "alice", "hello"⟩]⟩
    (by decide)).2.1 messageTableName

/-! ### The reference store: destructive read and overwrite policy -/

theorem refStore_valid_pair (cmp : Bytes → String → Bool) (id pw : String) (st : Store)
    (b : Bool) (h : ((refStore cmp).isValidPassword id pw st).1 = .ok b) :
    (refStore cmp).isValidPassword id pw st = (.ok b, st) :=
  Prod.ext h (refStore_isValidPassword_state cmp id pw st)

theorem refStore_valid_rows (cmp : Bytes → String → Bool) (id pw : String)
    (st : Store) (rows : List Row) :
    ((refStore cmp).isValidPassword id pw ⟨st.users, rows⟩).1
      = ((refStore cmp).isValidPassword id pw st).1 := by
  simp only [refStore, Store.isValidPassword, Store.hashOf]
  split <;> rfl

theorem handleGetMessage_refStore (cmp : Bytes → String → Bool) (t B pwB : String)
    (st : Store) (h : ((refStore cmp).isValidPassword B pwB st).1 = .ok true) :
    handleGetMessage (refStore cmp) t (.ok ⟨B, pwB⟩) st
      = (.ok ⟨StatusOK, .messages (st.inbox t B)⟩,
          ⟨st.users, st.rows.filter (fun r => !Row.isTo t B r)⟩) := by
  have hp := refStore_valid_pair cmp B pwB st true h
  simp only [handleGetMessage, hp]
  simp [refStore, Store.GetMessages, Store.DeleteMessages]

theorem handleNewMessage_refStore {Data : Type} (cmp : Bytes → String → Bool)
    (Marshal : Data → Except Err String) (t : String) (ow : Bool)
    (A pwA B : String) (d : Data) (j : String) (st : Store)
    (h : ((refStore cmp).isValidPassword A pwA st).1 = .ok true)
    (hm : Marshal d = .ok j) :
    handleNewMessage (refStore cmp) Marshal t ow (.ok ⟨A, pwA, B, d⟩) st
      = (.ok ⟨StatusOK, .success⟩,
          ⟨st.users,
            (if (ow && st.rows.any (Row.isFor t A B)) = true
              then st.rows.filter (fun r => !Row.isFor t A B r) else st.rows)
              ++ [⟨t, A, B, j⟩]⟩) := by
  have hp := refStore_valid_pair cmp A pwA st true h
  simp only [handleNewMessage, hp]
  simp [refStore, Store.IsMessagePending, Store.AddMessage, hm]

theorem inbox_after_delete (users : List (String × Bytes)) (rows : List Row) (t B : String) :
    Store.inbox ⟨users, rows.filter (fun r => !Row.isTo t B r)⟩ t B = [] := by
  simp [Store.inbox, List.filter_filter]

/-- C3: over the reference store, for every state and every recipient whose
credentials verify, `handleGetMessage` returns every message pending for the
recipient on that channel and leaves none, and an immediate second
`handleGetMessage` returns the empty sequence. -/
theorem destructive_read (cmp : Bytes → String → Bool) (t B pwB : String) (st : Store)
    (h : ((refStore cmp).isValidPassword B pwB st).1 = .ok true) :
    (handleGetMessage (refStore cmp) t (.ok ⟨B, pwB⟩) st).1
        = .ok ⟨StatusOK, .messages (st.inbox t B)⟩
      ∧ (handleGetMessage (refStore cmp) t (.ok ⟨B, pwB⟩) st).2.inbox t B = []
      ∧ (handleGetMessage (refStore cmp) t (.ok ⟨B, pwB⟩)
          (handleGetMessage (refStore cmp) t (.ok ⟨B, pwB⟩) st).2).1
        = .ok ⟨StatusOK, .messages []⟩ := by
  have h1 := handleGetMessage_refStore cmp t B pwB st h
  have hv2 : ((refStore cmp).isValidPassword B pwB
      ⟨st.users, st.rows.filter (fun r => !Row.isTo t B r)⟩).1 = .ok true := by
    rw [refStore_valid_rows]; exact h
  have h2 := handleGetMessage_refStore cmp t B pwB _ hv2
  rw [h1]
  refine ⟨rfl, inbox_after_delete _ _ _ _, ?_⟩
  simp only [h2]
  rw [inbox_after_delete]

/-- C3 on the scenario of the specification: "bob" reads the message "alice"
sent him, then reads again. -/
theorem destructive_read_witness :
    (handleGetMessage (refStore demoCompare) messageTableName
        (.ok ⟨"bob", "pw2"⟩)
        ⟨[("alice", [1]), ("bob", [2])], [⟨messageTableName, "alice", "bob", "x1"⟩]⟩).1
        = .ok ⟨StatusOK, .messages [⟨"alice", "x1"⟩]⟩
      ∧ (handleGetMessage (refStore demoCompare) messageTableName
          (.ok ⟨"bob", "pw2"⟩)
          (handleGetMessage (refStore demoCompare) messageTableName
            (.ok ⟨"bob", "pw2"⟩)
            ⟨[("alice", [1]), ("bob", [2])],
              [⟨messageTableName, "alice", "bob", "x1"⟩]⟩).2).1
        = .ok ⟨StatusOK, .messages []⟩ :=
  have h := destructive_read demoCompare messageTableName "bob" "pw2"
    ⟨[("alice", [1]), ("bob", [2])], [⟨messageTableName, "alice", "bob", "x1"⟩]⟩ (by decide)
  ⟨h.1, h.2.2⟩

theorem two_sends_refStore {Data : Type} (cmp : Bytes → String → Bool)
    (Marshal : Data → Except Err String) (t : String) (ow : Bool)
    (A pwA B : String) (p1 p2 : Data) (j1 j2 : String) (st : Store)
    (hA : ((refStore cmp).isValidPassword A pwA st).1 = .ok true)
    (h1 : Marshal p1 = .ok j1) (h2 : Marshal p2 = .ok j2) :
    handleNewMessage (refStore cmp) Marshal t ow (.ok ⟨A, pwA, B, p2⟩)
        (handleNewMessage (refStore cmp) Marshal t ow (.ok ⟨A, pwA, B, p1⟩) st).2
      = (.ok ⟨StatusOK, .success⟩,
          ⟨st.users,
            (if ow = true
              then (st.rows.filter (fun r => !Row.isFor t A B r))
              else st.rows ++ [⟨t, A, B, j1⟩]) ++ [⟨t, A, B, j2⟩]⟩) := by
  rw [handleNewMessage_refStore cmp Marshal t ow A pwA B p1 j1 st hA h1]
  have hv : ((refStore cmp).isValidPassword A pwA
      ⟨st.users, (if (ow && st.rows.any (Row.isFor t A B)) = true
          then st.rows.filter (fun r => !Row.isFor t A B r) else st.rows)
          ++ [⟨t, A, B, j1⟩]⟩).1 = .ok true := by
    rw [refStore_valid_rows]; exact hA
  rw [handleNewMessage_refStore cmp Marshal t ow A pwA B p2 j2 _ hv h2]
  cases ow <;> simp [Row.isFor, List.filter_filter]
  split <;> simp [List.filter_filter]

/-- C1: over the reference store, for every state, every sender whose
credentials verify, every recipient and every two payloads that serialize:
two sends on the message route both succeed and leave exactly one pending
message for the pair, the serialization of the second payload; two sends on
the nudge route both succeed and append both serializations to what was
pending for the pair (so exactly those two when nothing was pending), and a
following receive on the nudge route by the recipient returns the recipient's
earlier messages followed by both. -/
theorem overwrite_policy {Data : Type} (cmp : Bytes → String → Bool)
    (Marshal : Data → Except Err String) (A pwA B : String) (p1 p2 : Data)
    (j1 j2 : String) (st : Store)
    (hA : ((refStore cmp).isValidPassword A pwA st).1 = .ok true)
    (h1 : Marshal p1 = .ok j1) (h2 : Marshal p2 = .ok j2) :
    (routeUserMessageNew (refStore cmp) Marshal (.ok ⟨A, pwA, B, p1⟩) st).1
        = .ok ⟨StatusOK, .success⟩
      ∧ (routeUserMessageNew (refStore cmp) Marshal (.ok ⟨A, pwA, B, p2⟩)
          (routeUserMessageNew (refStore cmp) Marshal (.ok ⟨A, pwA, B, p1⟩) st).2).1
        = .ok ⟨StatusOK, .success⟩
      ∧ (routeUserMessageNew (refStore cmp) Marshal (.ok ⟨A, pwA, B, p2⟩)
          (routeUserMessageNew (refStore cmp) Marshal (.ok ⟨A, pwA, B, p1⟩) st).2).2.pending
            messageTableName A B = [j2]
      ∧ (routeUserNudgeNew (refStore cmp) Marshal (.ok ⟨A, pwA, B, p1⟩) st).1
        = .ok ⟨StatusOK, .success⟩
      ∧ (routeUserNudgeNew (refStore cmp) Marshal (.ok ⟨A, pwA, B, p2⟩)
          (routeUserNudgeNew (refStore cmp) Marshal (.ok ⟨A, pwA, B, p1⟩) st).2).1
        = .ok ⟨StatusOK, .success⟩
      ∧ (routeUserNudgeNew (refStore cmp) Marshal (.ok ⟨A, pwA, B, p2⟩)
          (routeUserNudgeNew (refStore cmp) Marshal (.ok ⟨A, pwA, B, p1⟩) st).2).2.pending
            nudgeTableName A B = st.pending nudgeTableName A B ++ [j1, j2]
      ∧ (st.pending nudgeTableName A B = [] →
          (routeUserNudgeNew (refStore cmp) Marshal (.ok ⟨A, pwA, B, p2⟩)
            (routeUserNudgeNew (refStore cmp) Marshal (.ok ⟨A, pwA, B, p1⟩) st).2).2.pending
              nudgeTableName A B = [j1, j2])
      ∧ (∀ pwB : String, ((refStore cmp).isValidPassword B pwB st).1 = .ok true →
          (routeUserNudge (refStore cmp) (.ok ⟨B, pwB⟩)
            (routeUserNudgeNew (refStore cmp) Marshal (.ok ⟨A, pwA, B, p2⟩)
              (routeUserNudgeNew (refStore cmp) Marshal (.ok ⟨A, pwA, B, p1⟩) st).2).2).1
            = .ok ⟨StatusOK, .messages
                (st.inbox nudgeTableName B ++ [⟨A, j1⟩, ⟨A, j2⟩])⟩) := by
  have hm := two_sends_refStore cmp Marshal messageTableName true A pwA B p1 p2 j1 j2 st
    hA h1 h2
  have hn := two_sends_refStore cmp Marshal nudgeTableName false A pwA B p1 p2 j1 j2 st
    hA h1 h2
  have hm1 := handleNewMessage_refStore cmp Marshal messageTableName true A pwA B p1 j1 st
    hA h1
  have hn1 := handleNewMessage_refStore cmp Marshal nudgeTableName false A pwA B p1 j1 st
    hA h1
  have hpend : Store.pending
      ⟨st.users, st.rows ++ [⟨nudgeTableName, A, B, j1⟩] ++ [⟨nudgeTableName, A, B, j2⟩]⟩
      nudgeTableName A B = st.pending nudgeTableName A B ++ [j1, j2] := by
    simp [Store.pending, Row.isFor, List.filter_append]
  simp only [routeUserMessageNew, routeUserNudgeNew, routeUserNudge]
  rw [hm, hn, hm1, hn1]
  simp only [if_true, Bool.false_eq_true, if_false]
  refine ⟨trivial, trivial, ?_, trivial, trivial, hpend, ?_, ?_⟩
  · simp [Store.pending, Row.isFor, List.filter_append, List.filter_filter]
  · intro h0
    rw [hpend, h0]; rfl
  · intro pwB hB
    have hv : ((refStore cmp).isValidPassword B pwB
        ⟨st.users, st.rows ++ [⟨nudgeTableName, A, B, j1⟩]
          ++ [⟨nudgeTableName, A, B, j2⟩]⟩).1 = .ok true := by
      rw [refStore_valid_rows]; exact hB
    rw [handleGetMessage_refStore cmp nudgeTableName B pwB _ hv]
    simp [Store.inbox, Row.isTo, Row.toMessage, List.filter_append]

/-- C1 at a concrete input: "alice" sends "one" then "two" to "bob" from an
empty mailbox, on the message route and on the nudge route. -/
theorem overwrite_policy_witness :
    (routeUserMessageNew (refStore demoCompare)
        (fun d : String => Except.ok d) (.ok ⟨"alice", "pw1", "bob", "two"⟩)
        (routeUserMessageNew
          (refStore demoCompare)
          (fun d : String => Except.ok d) (.ok ⟨"alice", "pw1", "bob", "one"⟩)
          ⟨[("alice", [1]), ("bob", [2])], []⟩).2).2.pending messageTableName "alice" "bob"
        = ["two"]
      ∧ (routeUserNudgeNew
          (refStore demoCompare)
          (fun d : String => Except.ok d) (.ok ⟨"alice", "pw1", "bob", "two"⟩)
          (routeUserNudgeNew
            (refStore demoCompare)
            (fun d : String => Except.ok d) (.ok ⟨"alice", "pw1", "bob", "one"⟩)
            ⟨[("alice", [1]), ("bob", [2])], []⟩).2).2.pending nudgeTableName "alice" "bob"
        = ["one", "two"]
      ∧ (routeUserNudge
          (refStore demoCompare)
          (.ok ⟨"bob", "pw2"⟩)
          (routeUserNudgeNew
            (refStore demoCompare)
            (fun d : String => Except.ok d) (.ok ⟨"alice", "pw1", "bob", "two"⟩)
            (routeUserNudgeNew
              (refStore demoCompare)
              (fun d : String => Except.ok d) (.ok ⟨"alice", "pw1", "bob", "one"⟩)
              ⟨[("alice", [1]), ("bob", [2])], []⟩).2).2).1
        = .ok ⟨StatusOK, .messages [⟨"alice", "one"⟩, ⟨"alice", "two"⟩]⟩ :=
  have h := overwrite_policy demoCompare
    (fun d : String => Except.ok d) "alice" "pw1" "bob" "one" "two" "one" "two"
    ⟨[("alice", [1]), ("bob", [2])], []⟩ (by decide) rfl rfl
  ⟨h.2.2.1, h.2.2.2.2.2.2.1 rfl, h.2.2.2.2.2.2.2 "pw2" (by decide)⟩

/-! ### Registration -/

theorem refStore_DoesUserExist (cmp : Bytes → String → Bool) (id : String) (st : Store) :
    (refStore cmp).DoesUserExist id st = (.ok (st.users.any (fun u => u.1 == id)), st) := rfl

theorem hashOf_append (users extra : List (String × Bytes)) (rows rows2 : List Row)
    (id : String) (d : Bytes) (h : Store.hashOf ⟨users, rows⟩ id = some d) :
    Store.hashOf ⟨users ++ extra, rows2⟩ id = some d := by
  simp only [Store.hashOf, Option.map_eq_some'] at h ⊢
  obtain ⟨u, hu, hd⟩ := h
  exact ⟨u, by simp [List.find?_append, hu], hd⟩

theorem any_of_hashOf (st : Store) (id : String) (d : Bytes) (h : st.hashOf id = some d) :
    st.users.any (fun u => u.1 == id) = true := by
  simp only [Store.hashOf, Option.map_eq_some'] at h
  obtain ⟨u, hu, _⟩ := h
  have hmem := List.mem_of_find?_eq_some hu
  have hp := List.find?_some hu
  exact List.any_eq_true.mpr ⟨u, hmem, hp⟩

theorem serve_refStore_users {Data : Type} (cmp : Bytes → String → Bool)
    (r : Request Data) (st : Store) :
    ∃ extra, (serve (refStore cmp) r st).2.users = st.users ++ extra := by
  cases r with
  | checkUser c =>
    cases c with
    | error e => exact ⟨[], by simp [serve, handleCheckUser]⟩
    | ok u => exact ⟨[], by simp [serve, handleCheckUser, refStore, Store.DoesUserExist]⟩
  | addUser g c =>
    cases c with
    | error e => exact ⟨[], by simp [serve, handleAddUser]⟩
    | ok u =>
      simp only [serve, handleAddUser, refStore, Store.DoesUserExist, Store.InsertUser]
      cases hany : st.users.any (fun x => x.1 == u.Identifier) with
      | true => exact ⟨[], by simp⟩
      | false =>
        cases hg : g u.Password with
        | error e => exact ⟨[], by simp⟩
        | ok digest => exact ⟨[(u.Identifier, digest)], by simp [hany]⟩
  | newMessage m t ow c =>
    cases c with
    | error e => exact ⟨[], by simp [serve, handleNewMessage]⟩
    | ok nm =>
      refine ⟨[], ?_⟩
      simp only [serve, handleNewMessage]
      have hst := refStore_isValidPassword_state cmp nm.Identifier_from nm.Password st
      generalize (refStore cmp).isValidPassword nm.Identifier_from nm.Password st = x at hst
      obtain ⟨r1, s1⟩ := x
      simp only at hst
      subst hst
      rcases r1 with e | v
      · simp
      · cases v
        · simp
        · simp only [refStore, Store.IsMessagePending, Store.AddMessage]
          cases m nm.Data <;> simp
  | getMessage t c =>
    cases c with
    | error e => exact ⟨[], by simp [serve, handleGetMessage]⟩
    | ok u =>
      refine ⟨[], ?_⟩
      simp only [serve, handleGetMessage]
      have hst := refStore_isValidPassword_state cmp u.Identifier u.Password st
      generalize (refStore cmp).isValidPassword u.Identifier u.Password st = x at hst
      obtain ⟨r1, s1⟩ := x
      simp only at hst
      subst hst
      rcases r1 with e | v
      · simp
      · cases v <;> simp [refStore, Store.GetMessages, Store.DeleteMessages]

theorem serveAll_refStore_hash {Data : Type} (cmp : Bytes → String → Bool)
    (reqs : List (Request Data)) (st : Store) (id : String) (d : Bytes)
    (h : st.hashOf id = some d) : (serveAll (refStore cmp) reqs st).hashOf id = some d := by
  induction reqs generalizing st with
  | nil => exact h
  | cons r rs ih =>
    simp only [serveAll]
    apply ih
    obtain ⟨extra, he⟩ := serve_refStore_users cmp r st
    have := hashOf_append st.users extra st.rows (serve (refStore cmp) r st).2.rows id d h
    rw [← he] at this
    exact this

theorem handleAddUser_existing {σ : Type} (db : DataSource σ)
    (gen : String → Except Err Bytes) (id pw : String) (s s1 : σ)
    (h : db.DoesUserExist id s = (.ok true, s1)) :
    handleAddUser (recording db) gen (.ok ⟨id, pw⟩) (s, [])
      = (.ok ⟨StatusBadRequest, .failure "Identifier already exists."⟩,
          (s1, [Call.DoesUserExist id])) := by
  simp [handleAddUser, recording, logged, h, failStatus]

/-- C9 as amended: over the reference store, for every identifier not yet
inserted and a request whose password the hash function accepts,
`handleAddUser` succeeds and stores the hash; after any further requests to
the exchange handlers, every `handleAddUser` for the same identifier answers
status 400 with reason "Identifier already exists.", calls only
`DoesUserExist` (no `InsertUser`), and leaves the state, hence the stored hash
and the answer of `DoesUserExist`, unchanged. -/
theorem registration_exclusive {Data : Type} (cmp : Bytes → String → Bool)
    (gen : String → Except Err Bytes) (id pw : String) (digest : Bytes) (st : Store)
    (hnew : ((refStore cmp).DoesUserExist id st).1 = .ok false)
    (hgen : gen pw = .ok digest) :
    handleAddUser (recording (refStore cmp)) gen (.ok ⟨id, pw⟩) (st, [])
        = (.ok ⟨StatusOK, .success⟩,
            (⟨st.users ++ [(id, digest)], st.rows⟩,
              [Call.DoesUserExist id, Call.InsertUser id digest]))
      ∧ Store.hashOf ⟨st.users ++ [(id, digest)], st.rows⟩ id = some digest
      ∧ ∀ (reqs : List (Request Data)) (gen2 : String → Except Err Bytes) (pw2 : String),
          handleAddUser (recording (refStore cmp)) gen2 (.ok ⟨id, pw2⟩)
              (serveAll (refStore cmp) reqs ⟨st.users ++ [(id, digest)], st.rows⟩, [])
            = (.ok ⟨StatusBadRequest, .failure "Identifier already exists."⟩,
                (serveAll (refStore cmp) reqs ⟨st.users ++ [(id, digest)], st.rows⟩,
                  [Call.DoesUserExist id]))
          ∧ (serveAll (refStore cmp) reqs ⟨st.users ++ [(id, digest)], st.rows⟩).hashOf id
              = some digest
          ∧ ((refStore cmp).DoesUserExist id
              (handleAddUser (refStore cmp) gen2 (.ok ⟨id, pw2⟩)
                (serveAll (refStore cmp) reqs ⟨st.users ++ [(id, digest)], st.rows⟩)).2).1
            = ((refStore cmp).DoesUserExist id
              (serveAll (refStore cmp) reqs ⟨st.users ++ [(id, digest)], st.rows⟩)).1 := by
  have hany : st.users.any (fun u => u.1 == id) = false := by
    simpa [refStore, Store.DoesUserExist] using hnew
  have hfind : st.users.find? (fun u => u.1 == id) = none := by
    rw [List.find?_eq_none]
    intro u hu hp
    have : st.users.any (fun u => u.1 == id) = true := List.any_eq_true.mpr ⟨u, hu, hp⟩
    rw [hany] at this
    exact Bool.noConfusion this
  have hhash : Store.hashOf ⟨st.users ++ [(id, digest)], st.rows⟩ id = some digest := by
    simp [Store.hashOf, List.find?_append, hfind]
  refine ⟨?_, hhash, ?_⟩
  · simp [handleAddUser, recording, logged, refStore, Store.DoesUserExist, Store.InsertUser,
      hany, hgen]
  · intro reqs gen2 pw2
    have hh := serveAll_refStore_hash cmp reqs _ id digest hhash
    have hex := any_of_hashOf _ id digest hh
    have hpair : (refStore cmp).DoesUserExist id
        (serveAll (refStore cmp) reqs ⟨st.users ++ [(id, digest)], st.rows⟩)
        = (.ok true, serveAll (refStore cmp) reqs ⟨st.users ++ [(id, digest)], st.rows⟩) := by
      rw [refStore_DoesUserExist, hex]
    refine ⟨handleAddUser_existing _ gen2 id pw2 _ _ hpair, hh, ?_⟩
    simp [handleAddUser, hpair]

/-- C9 fails as stated: the first request for the fresh identifier "alice"
carries a 73-byte password, the hash function refuses it, the handler returns
that error after the single `DoesUserExist` call and nothing is inserted; the
later request for the same identifier then succeeds and inserts a hash. -/
theorem first_registration_can_fail :
    longPassword.utf8ByteSize = 73
      ∧ handleAddUser (recording (refStore demoCompare)) demoGenerate
          (.ok ⟨"alice", longPassword⟩) (⟨[], []⟩, [])
        = (.error "bcrypt: password length exceeds 72 bytes",
            (⟨[], []⟩, [Call.DoesUserExist "alice"]))
      ∧ handleAddUser (recording (refStore demoCompare)) demoGenerate
          (.ok ⟨"alice", "pw1"⟩) (⟨[], []⟩, [])
        = (.ok ⟨StatusOK, .success⟩,
            (⟨[("alice", [1])], []⟩,
              [Call.DoesUserExist "alice", Call.InsertUser "alice" [1]])) := by
  decide

/-- C9 as amended, at a concrete input: "alice" registers on an empty store, then a
second registration under the same identifier is refused. -/
theorem registration_exclusive_witness :
    handleAddUser (recording (refStore demoCompare)) (fun _ => .ok [1])
        (.ok ⟨"alice", "pw1"⟩) (⟨[], []⟩, [])
        = (.ok ⟨StatusOK, .success⟩,
            (⟨[("alice", [1])], []⟩,
              [Call.DoesUserExist "alice", Call.InsertUser "alice" [1]]))
      ∧ handleAddUser (recording (refStore demoCompare)) (fun _ => .ok [2])
          (.ok ⟨"alice", "pw2"⟩) (⟨[("alice", [1])], []⟩, [])
        = (.ok ⟨StatusBadRequest, .failure "Identifier already exists."⟩,
            (⟨[("alice", [1])], []⟩, [Call.DoesUserExist "alice"])) :=
  have h := @registration_exclusive String demoCompare (fun _ => .ok [1]) "alice" "pw1" [1]
    ⟨[], []⟩ (by decide) rfl
  ⟨h.1, (h.2.2 [] (fun _ => .ok [2]) "pw2").1⟩

/-! ### The add-friend link check -/

theorem beginMarker_length : beginMarker.length = 30 := by decide

theorem endMarker_length : endMarker.length = 28 := by decide

theorem HasPrefix_iff (s p : Bytes) : HasPrefix s p = true ↔ ∃ r, s = p ++ r := by
  unfold HasPrefix
  constructor
  · intro h
    simp only [Bool.and_eq_true, decide_eq_true_eq, beq_iff_eq] at h
    refine ⟨s.drop p.length, ?_⟩
    conv_lhs => rw [← List.take_append_drop p.length s]
    rw [h.2]
  · rintro ⟨r, rfl⟩
    simp

theorem HasSuffix_iff (s x : Bytes) : HasSuffix s x = true ↔ ∃ r, s = r ++ x := by
  unfold HasSuffix
  constructor
  · intro h
    simp only [Bool.and_eq_true, decide_eq_true_eq, beq_iff_eq] at h
    refine ⟨s.take (s.length - x.length), ?_⟩
    conv_lhs => rw [← List.take_append_drop (s.length - x.length) s]
    rw [h.2]
  · rintro ⟨r, rfl⟩
    simp

/-- C10: `isValidIDAndKey id key` is true exactly when `id` is non-empty and
`key` is the 30-byte header, a body of at least 4 bytes and the 28-byte
footer, in that order; dropping the empty-key test changes no result. -/
theorem isValidIDAndKey_iff (id key : Bytes) :
    (isValidIDAndKey id key = true ↔
        id ≠ [] ∧ ∃ body : Bytes, 4 ≤ body.length ∧ key = beginMarker ++ body ++ endMarker)
      ∧ beginMarker.length = 30 ∧ endMarker.length = 28
      ∧ isValidIDAndKeyNoEmptyTest id key = isValidIDAndKey id key := by
  refine ⟨?_, beginMarker_length, endMarker_length, ?_⟩
  · unfold isValidIDAndKey
    constructor
    · intro h
      split at h
      · exact Bool.noConfusion h
      · rename_i hne
        split at h
        · exact Bool.noConfusion h
        · rename_i hlen
          simp only [Bool.or_eq_true, beq_iff_eq, not_or] at hne
          simp only [Bool.and_eq_true, HasPrefix_iff, HasSuffix_iff] at h
          obtain ⟨⟨r, hr⟩, ⟨q, hq⟩⟩ := h
          refine ⟨fun hid => hne.1 (by simp [hid]), ?_⟩
          have hrlen : 32 ≤ r.length := by
            have := congrArg List.length hr
            simp only [List.length_append, beginMarker_length] at this
            omega
          have heq : beginMarker ++ r = q ++ endMarker := by rw [← hr, ← hq]
          rcases List.append_eq_append_iff.mp heq with ⟨a, _, ha⟩ | ⟨c, _, hc⟩
          · refine ⟨a, ?_, ?_⟩
            · have := congrArg List.length ha
              simp only [List.length_append, endMarker_length] at this
              omega
            · rw [hr, ha, List.append_assoc]
          · have := congrArg List.length hc
            simp only [List.length_append, endMarker_length] at this
            omega
    · rintro ⟨hid, body, hbody, rfl⟩
      have hidlen : id.length ≠ 0 := fun h => hid (List.length_eq_zero.mp h)
      have hlen : (beginMarker ++ body ++ endMarker).length = 58 + body.length := by
        simp only [List.length_append, beginMarker_length, endMarker_length]
        omega
      have hp : HasPrefix (beginMarker ++ body ++ endMarker) beginMarker = true :=
        (HasPrefix_iff _ _).mpr ⟨body ++ endMarker, by rw [List.append_assoc]⟩
      have hs : HasSuffix (beginMarker ++ body ++ endMarker) endMarker = true :=
        (HasSuffix_iff _ _).mpr ⟨beginMarker ++ body, rfl⟩
      rw [hp, hs, hlen]
      simp [hidlen]
      omega
  · unfold isValidIDAndKeyNoEmptyTest isValidIDAndKey
    by_cases hid : id.length = 0
    · simp [hid]
    · by_cases hk : key.length = 0
      · simp [hid, hk]
      · simp [hid, hk]

/-! ### Cipher helpers -/

theorem toyGCM_open_seal (k n p : Bytes) : toyGCM.Open k n (toyGCM.Seal k n p) = .ok p := by
  have hlen : (toyTag k n p).length = 16 := by simp [toyTag]
  simp only [toyGCM, List.length_append, hlen, Nat.add_sub_cancel]
  rw [if_pos]
  · simp
  · refine ⟨by omega, ?_⟩
    simp

theorem take_nonce (nonce box : Bytes) (hn : nonce.length = NonceSize) :
    (nonce ++ box).take NonceSize = nonce := by
  rw [← hn]; simp

theorem drop_nonce (nonce box : Bytes) (hn : nonce.length = NonceSize) :
    (nonce ++ box).drop NonceSize = box := by
  rw [← hn]; simp

/-- C5: for an AES-GCM whose `Open` undoes `Seal` under the same key and
nonce, every plaintext, every key of an accepted size and every 12-byte nonce
the random source yields: `EncryptAES` returns the nonce followed by the
sealed box, the first 12 bytes of that output are the nonce and the rest the
box, and `DecryptAES` on that output under the same key returns the
plaintext. -/
theorem decrypt_encrypt (gcm : GCM) (randRead : Nat → Except Err Bytes)
    (P K nonce : Bytes)
    (hlaw : ∀ k n p : Bytes, validKeySize k = true → n.length = NonceSize →
      gcm.Open k n (gcm.Seal k n p) = .ok p)
    (hK : validKeySize K = true)
    (hr : randRead NonceSize = .ok nonce) (hn : nonce.length = NonceSize) :
    EncryptAES gcm randRead P K = .ret (nonce ++ gcm.Seal K nonce P)
      ∧ (nonce ++ gcm.Seal K nonce P).take NonceSize = nonce
      ∧ (nonce ++ gcm.Seal K nonce P).drop NonceSize = gcm.Seal K nonce P
      ∧ DecryptAES gcm (nonce ++ gcm.Seal K nonce P) K = .ret P := by
  refine ⟨?_, take_nonce _ _ hn, drop_nonce _ _ hn, ?_⟩
  · simp [EncryptAES, hK, hr]
  · have hlen : ¬ (nonce ++ gcm.Seal K nonce P).length < NonceSize := by
      simp only [List.length_append, hn]; omega
    simp only [DecryptAES, hK, if_true, hlen, if_false, take_nonce _ _ hn, drop_nonce _ _ hn,
      hlaw K nonce P hK hn]

/-- C5 at a concrete input: the stand-in cipher, a 32-byte key, an all-zero
nonce and the plaintext 10, 20, 30. -/
theorem decrypt_encrypt_witness :
    EncryptAES toyGCM (fun n => .ok (List.replicate n 0)) [10, 20, 30] key32 = .ret goodBlob
      ∧ DecryptAES toyGCM goodBlob key32 = .ret [10, 20, 30] :=
  have h := decrypt_encrypt toyGCM (fun n => .ok (List.replicate n 0)) [10, 20, 30] key32
    (List.replicate 12 0) (fun k n p _ _ => toyGCM_open_seal k n p) (by decide) rfl (by decide)
  ⟨h.1, h.2.2.2⟩

/-- C6 fails as stated: `DecryptAES` has no error result.  Under a key of a
rejected length, and on a blob that fails the integrity check, it returns the
empty byte sequence, which is also what it returns for a sealed empty
plaintext; on a 3-byte input under an accepted key it panics. -/
theorem DecryptAES_not_fail_closed :
    DecryptAES toyGCM goodBlob key3 = .ret []
      ∧ authenticated toyGCM key32 badBlob = none
      ∧ DecryptAES toyGCM badBlob key32 = .ret []
      ∧ authenticated toyGCM key32 emptyBlob = some []
      ∧ DecryptAES toyGCM emptyBlob key32 = .ret []
      ∧ DecryptAES toyGCM [1, 2, 3] key32 = .panic "slice bounds out of range" := by
  decide

/-- C6 as amended: for every key and every input that has at least 12 bytes
when the key has an accepted size, `DecryptAES` returns (it does not panic),
and what it returns is the plaintext `gcm.Open` authenticated, or the empty
byte sequence when nothing was authenticated (rejected key size or failed
integrity check). -/
theorem DecryptAES_authenticated_or_empty (gcm : GCM) (cipherData secret : Bytes)
    (h : validKeySize secret = true → NonceSize ≤ cipherData.length) :
    ∃ plainData, DecryptAES gcm cipherData secret = .ret plainData
      ∧ (authenticated gcm secret cipherData = some plainData
        ∨ (authenticated gcm secret cipherData = none ∧ plainData = [])) := by
  unfold DecryptAES authenticated
  by_cases hk : validKeySize secret = true
  · have hlen := h hk
    have hlt : ¬ cipherData.length < NonceSize := by omega
    simp only [hk, if_true, hlt, if_false, Bool.true_and, decide_eq_true_eq, hlen]
    cases gcm.Open secret (cipherData.take NonceSize) (cipherData.drop NonceSize) with
    | error e => exact ⟨[], rfl, Or.inr ⟨rfl, rfl⟩⟩
    | ok p => exact ⟨p, rfl, Or.inl rfl⟩
  · have hk2 : validKeySize secret = false := by simpa using hk
    rw [hk2]
    exact ⟨[], rfl, Or.inr ⟨rfl, rfl⟩⟩

/-- C6 as amended, at a blob that fails the integrity check. -/
theorem DecryptAES_authenticated_or_empty_witness :
    ∃ plainData, DecryptAES toyGCM badBlob key32 = .ret plainData
      ∧ (authenticated toyGCM key32 badBlob = some plainData
        ∨ (authenticated toyGCM key32 badBlob = none ∧ plainData = [])) :=
  DecryptAES_authenticated_or_empty toyGCM badBlob key32 (fun _ => by decide)

/-! ### Audio export -/

theorem DecryptAES_ret (gcm : GCM) (cipherData secret plainData : Bytes)
    (h : DecryptAES gcm cipherData secret = .ret plainData) :
    plainData = (authenticated gcm secret cipherData).getD [] := by
  unfold DecryptAES at h
  unfold authenticated
  by_cases hk : validKeySize secret = true
  · by_cases hlt : cipherData.length < NonceSize
    · simp [hk, hlt] at h
    · have hle : NonceSize ≤ cipherData.length := by omega
      simp only [hk, if_true, hlt, if_false] at h
      simp only [hk, Bool.true_and, decide_eq_true_eq, hle, if_true]
      cases hopen : gcm.Open secret (cipherData.take NonceSize) (cipherData.drop NonceSize) with
      | error e =>
        rw [hopen] at h
        simp only [Run.ret.injEq] at h
        simp [← h]
      | ok p =>
        rw [hopen] at h
        simp only [Run.ret.injEq] at h
        simp [← h]
  · have hk2 : validKeySize secret = false := by simpa using hk
    rw [hk2] at h
    simp only [Bool.false_eq_true, if_false, Run.ret.injEq] at h
    simp [hk2, ← h]

theorem lookup_put (fs : FS) (name : String) (d : FileData) :
    (fs.put name d).lookup name = some d := by
  have hnone : List.find? (fun f => f.1 == name)
      (fs.cwd.filter (fun f => f.1 != name)) = none := by
    rw [List.find?_eq_none]
    intro x hx
    have := (List.mem_filter.mp hx).2
    simpa using this
  simp [FS.lookup, FS.put, List.find?_append, hnone]

theorem find_of_nodup (l : List (String × Bytes)) (e : String × Bytes)
    (hn : (l.map Prod.fst).Nodup) (he : e ∈ l) :
    l.find? (fun x => x.1 == e.1) = some e := by
  induction l with
  | nil => cases he
  | cons x xs ih =>
    simp only [List.map_cons, List.nodup_cons] at hn
    rcases List.mem_cons.mp he with rfl | hmem
    · simp
    · have hne : x.1 ≠ e.1 := by
        intro hx
        exact hn.1 (hx ▸ List.mem_map_of_mem Prod.fst hmem)
      rw [List.find?_cons_of_neg]
      · exact ih hn.2 hmem
      · simpa using hne

theorem exportEntry_ret (gcm : GCM) (secret : Bytes) (name : String) (st st1 : ExportState)
    (h : exportEntry gcm secret name st = (.ret (), st1)) :
    ∃ blob, st.fs.readFile name = .ok blob
      ∧ st1.zip = st.zip ++ [(name, (authenticated gcm secret blob).getD [])]
      ∧ st1.fs.audio = st.fs.audio
      ∧ st1.fs.faults = st.fs.faults
      ∧ st1.fs.lookup zipName = some (.archive st1.zip)
      ∧ st1.deferred = name :: st.deferred := by
  unfold exportEntry at h
  cases hrf : st.fs.readFile name with
  | error e => simp [hrf] at h
  | ok blob =>
    simp only [hrf] at h
    cases hdec : DecryptAES gcm blob secret with
    | panic m => simp [hdec] at h
    | exit c => simp [hdec] at h
    | ret plain =>
      have hplain := DecryptAES_ret gcm blob secret plain hdec
      simp only [hdec] at h
      by_cases hw : st.fs.fails .writeFile name = true
      · simp [FS.WriteFile, hw] at h
      · simp only [FS.WriteFile, hw, Bool.false_eq_true, if_false] at h
        by_cases ho : (st.fs.put name (.bytes plain)).fails .openFile name = true
        · simp [FS.openFile, ho] at h
        · simp only [FS.openFile, ho, Bool.false_eq_true, if_false, lookup_put] at h
          by_cases hz : (st.fs.put name (.bytes plain)).fails .zipCreate name = true
          · simp [hz] at h
          · by_cases hc : (st.fs.put name (.bytes plain)).fails .copy name = true
            · simp [hz, hc] at h
            · simp only [hz, hc, Bool.false_eq_true, if_false, Prod.mk.injEq, true_and] at h
              subst h
              refine ⟨blob, rfl, ?_, rfl, rfl, lookup_put _ _ _, rfl⟩
              simp [hplain]

theorem exportLoop_ret (gcm : GCM) (secret : Bytes) (es : List (String × Bytes))
    (st st1 : ExportState)
    (hfind : ∀ e ∈ es, ∀ blob, st.fs.readFile e.1 = .ok blob → blob = e.2)
    (hinv : st.fs.lookup zipName = some (.archive st.zip))
    (h : exportLoop gcm secret (es.map Prod.fst) st = (.ret (), st1)) :
    st1.fs.lookup zipName = some (.archive st1.zip)
      ∧ st1.zip = st.zip ++ (es.filter (fun e => e.1 != ".DS_Store")).map
          (fun e => (e.1, (authenticated gcm secret e.2).getD [])) := by
  induction es generalizing st with
  | nil =>
    simp only [List.map_nil, exportLoop, Prod.mk.injEq, true_and] at h
    subst h
    exact ⟨hinv, by simp⟩
  | cons e rest ih =>
    simp only [List.map_cons, exportLoop] at h
    by_cases hds : (e.1 != ".DS_Store") = true
    · simp only [hds, if_true] at h
      cases hent : exportEntry gcm secret e.1 st with
      | mk r st2 =>
        rw [hent] at h
        cases r with
        | panic m => simp at h
        | exit c => simp at h
        | ret u =>
          simp only at h
          obtain ⟨blob, hrf, hzip, haudio, hfaults, hlook, _⟩ :=
            exportEntry_ret gcm secret e.1 st st2 hent
          have hblob : blob = e.2 := hfind e (List.mem_cons_self _ _) blob hrf
          have hfind2 : ∀ x ∈ rest, ∀ b, st2.fs.readFile x.1 = .ok b → b = x.2 := by
            intro x hx b hb
            apply hfind x (List.mem_cons_of_mem _ hx) b
            simpa [FS.readFile, FS.fails, haudio, hfaults] using hb
          obtain ⟨h1, h2⟩ := ih st2 hfind2 hlook h
          refine ⟨h1, ?_⟩
          rw [h2, hzip, hblob]
          simp [List.filter_cons, hds]
    · simp only [hds, Bool.false_eq_true, if_false] at h
      have hfind2 : ∀ x ∈ rest, ∀ b, st.fs.readFile x.1 = .ok b → b = x.2 :=
        fun x hx => hfind x (List.mem_cons_of_mem _ hx)
      obtain ⟨h1, h2⟩ := ih st hfind2 hinv h
      refine ⟨h1, ?_⟩
      rw [h2]
      simp [List.filter_cons, hds]

/-- C7 fails as stated: with a blob that fails the integrity check the export
returns an archive that has an entry for that blob, with empty content; with
a secret of a rejected length every entry is there and empty. -/
theorem export_emits_failed_entries :
    authenticated toyGCM key32 badBlob = none
      ∧ (Export toyGCM key32 fsTampered).1
        = .ret (some (.archive [("a.m4a", [10, 20, 30]), ("b.m4a", [])]))
      ∧ authenticated toyGCM key3 goodBlob = none
      ∧ (Export toyGCM key3 fsTampered).1
        = .ret (some (.archive [("a.m4a", []), ("b.m4a", [])])) := by
  decide

theorem Export_ret_archive (gcm : GCM) (secret : Bytes) (fs fs1 : FS)
    (entries : List (String × Bytes)) (att : Option FileData)
    (haudio : fs.audio = some entries)
    (hnodup : (entries.map Prod.fst).Nodup)
    (h : Export gcm secret fs = (.ret att, fs1)) :
    att = some (.archive ((entries.filter (fun e => e.1 != ".DS_Store")).map
      (fun e => (e.1, (authenticated gcm secret e.2).getD [])))) := by
  unfold Export at h
  by_cases hc : fs.fails .create zipName = true
  · simp [FS.create, hc] at h
  · simp only [FS.create, hc, Bool.false_eq_true, if_false] at h
    have ha : (fs.put zipName (.archive [])).audio = some entries := haudio
    by_cases hr : (fs.put zipName (.archive [])).fails .readDir "Audio" = true
    · simp [FS.readDir, hr] at h
    · simp only [FS.readDir, hr, Bool.false_eq_true, if_false, ha] at h
      cases hloop : exportLoop gcm secret (entries.map (fun e => e.1))
          ⟨fs.put zipName (.archive []), [], []⟩ with
      | mk r st =>
        rw [hloop] at h
        cases r with
        | panic m => simp at h
        | exit c => simp at h
        | ret u =>
          simp only [Prod.mk.injEq, Run.ret.injEq] at h
          have hfind : ∀ e ∈ entries, ∀ blob,
              (fs.put zipName (.archive [])).readFile e.1 = .ok blob → blob = e.2 := by
            intro e he blob hb
            unfold FS.readFile at hb
            split at hb
            · exact Except.noConfusion hb
            · rw [ha] at hb
              simp only [find_of_nodup entries e hnodup he, Except.ok.injEq] at hb
              exact hb.symm
          obtain ⟨h1, h2⟩ := exportLoop_ret gcm secret entries _ st hfind (lookup_put _ _ _) hloop
          rw [← h.1, h1, h2]
          simp

theorem DecryptAES_returns (gcm : GCM) (cipherData secret : Bytes)
    (h : validKeySize secret = true → NonceSize ≤ cipherData.length) :
    DecryptAES gcm cipherData secret
      = .ret ((authenticated gcm secret cipherData).getD []) := by
  have hex : ∃ p, DecryptAES gcm cipherData secret = .ret p := by
    unfold DecryptAES
    by_cases hk : validKeySize secret = true
    · have hlt : ¬ cipherData.length < NonceSize := by have := h hk; omega
      simp only [hk, if_true, hlt, if_false]
      cases gcm.Open secret (cipherData.take NonceSize) (cipherData.drop NonceSize) with
      | error e => exact ⟨[], rfl⟩
      | ok p => exact ⟨p, rfl⟩
    · have hk2 : validKeySize secret = false := by simpa using hk
      rw [hk2]
      exact ⟨[], rfl⟩
  obtain ⟨p, hp⟩ := hex
  rw [hp, DecryptAES_ret gcm cipherData secret p hp]

theorem fails_of_no_faults (fs : FS) (op : Op) (name : String) (h : fs.faults = []) :
    fs.fails op name = false := by
  simp [FS.fails, h]

theorem exportEntry_total (gcm : GCM) (secret : Bytes) (name : String) (st : ExportState)
    (blob : Bytes) (hfaults : st.fs.faults = [])
    (hrf : st.fs.readFile name = .ok blob)
    (hlen : validKeySize secret = true → NonceSize ≤ blob.length) :
    ∃ st1, exportEntry gcm secret name st = (.ret (), st1)
      ∧ st1.fs.faults = [] ∧ st1.fs.audio = st.fs.audio := by
  have hput : ∀ d, (st.fs.put name d).faults = [] := fun _ => hfaults
  refine ⟨⟨(st.fs.put name (.bytes ((authenticated gcm secret blob).getD []))).put zipName
      (.archive (st.zip ++ [(name, (authenticated gcm secret blob).getD [])])),
    st.zip ++ [(name, (authenticated gcm secret blob).getD [])], name :: st.deferred⟩,
    ?_, hfaults, rfl⟩
  unfold exportEntry
  simp only [hrf, DecryptAES_returns gcm blob secret hlen, FS.WriteFile, FS.openFile,
    fails_of_no_faults _ _ _ hfaults, fails_of_no_faults _ _ _ (hput _), lookup_put,
    Bool.false_eq_true, if_false]

theorem exportLoop_total (gcm : GCM) (secret : Bytes) (all es : List (String × Bytes))
    (st : ExportState) (hfaults : st.fs.faults = []) (haud : st.fs.audio = some all)
    (hfind : ∀ e ∈ es, all.find? (fun x => x.1 == e.1) = some e)
    (hlen : validKeySize secret = true →
      ∀ e ∈ es, e.1 ≠ ".DS_Store" → NonceSize ≤ e.2.length) :
    ∃ st1, exportLoop gcm secret (es.map Prod.fst) st = (.ret (), st1) := by
  induction es generalizing st with
  | nil => exact ⟨st, rfl⟩
  | cons e rest ih =>
    simp only [List.map_cons, exportLoop]
    have hfind2 : ∀ x ∈ rest, all.find? (fun y => y.1 == x.1) = some x :=
      fun x hx => hfind x (List.mem_cons_of_mem _ hx)
    have hlen2 : validKeySize secret = true →
        ∀ x ∈ rest, x.1 ≠ ".DS_Store" → NonceSize ≤ x.2.length :=
      fun hk x hx => hlen hk x (List.mem_cons_of_mem _ hx)
    by_cases hds : (e.1 != ".DS_Store") = true
    · simp only [hds, if_true]
      have hrf : st.fs.readFile e.1 = .ok e.2 := by
        simp [FS.readFile, fails_of_no_faults _ _ _ hfaults, haud,
          hfind e (List.mem_cons_self _ _)]
      have hl : validKeySize secret = true → NonceSize ≤ e.2.length :=
        fun hk => hlen hk e (List.mem_cons_self _ _) (by simpa using hds)
      obtain ⟨st1, hent, hf1, ha1⟩ := exportEntry_total gcm secret e.1 st e.2 hfaults hrf hl
      rw [hent]
      exact ih st1 hf1 (ha1.trans haud) hfind2 hlen2
    · simp only [hds, Bool.false_eq_true, if_false]
      exact ih st hfaults haud hfind2 hlen2

theorem Export_total (gcm : GCM) (secret : Bytes) (fs : FS)
    (entries : List (String × Bytes))
    (haudio : fs.audio = some entries)
    (hnodup : (entries.map Prod.fst).Nodup)
    (hfaults : fs.faults = [])
    (hlen : validKeySize secret = true →
      ∀ e ∈ entries, e.1 ≠ ".DS_Store" → NonceSize ≤ e.2.length) :
    ∃ att, (Export gcm secret fs).1 = .ret att := by
  have hf1 : (fs.put zipName (.archive [])).faults = [] := hfaults
  have ha : (fs.put zipName (.archive [])).audio = some entries := haudio
  obtain ⟨st1, hloop⟩ := exportLoop_total gcm secret entries entries
    ⟨fs.put zipName (.archive []), [], []⟩ hf1 ha
    (fun e he => find_of_nodup entries e hnodup he) hlen
  refine ⟨st1.fs.lookup zipName, ?_⟩
  unfold Export
  simp only [FS.create, FS.readDir, fails_of_no_faults _ _ _ hfaults,
    fails_of_no_faults _ _ _ hf1, Bool.false_eq_true, if_false, ha]
  rw [hloop]

/-- C7 as amended: for every directory content with distinct names, none of
them the archive's own name, and every secret, when `export` returns, the
archive it hands out has one entry for each blob other than `.DS_Store`, in
directory order and under the blob's name, holding the plaintext `gcm.Open`
authenticated for that blob, or nothing when the decryption failed; and it
does return that archive when no file operation fails and, under a secret
of an accepted length, each of these blobs has at least 12 bytes. -/
theorem export_archive_entries (gcm : GCM) (secret : Bytes) (fs : FS)
    (entries : List (String × Bytes))
    (haudio : fs.audio = some entries)
    (hnodup : (entries.map Prod.fst).Nodup)
    (_hzip : ∀ e ∈ entries, e.1 ≠ zipName) :
    (∀ (att : Option FileData) (fs1 : FS), Export gcm secret fs = (.ret att, fs1) →
        att = some (.archive ((entries.filter (fun e => e.1 != ".DS_Store")).map
          (fun e => (e.1, (authenticated gcm secret e.2).getD [])))))
      ∧ (fs.faults = [] →
          (validKeySize secret = true →
            ∀ e ∈ entries, e.1 ≠ ".DS_Store" → NonceSize ≤ e.2.length) →
          (Export gcm secret fs).1
            = .ret (some (.archive ((entries.filter (fun e => e.1 != ".DS_Store")).map
                (fun e => (e.1, (authenticated gcm secret e.2).getD [])))))) := by
  refine ⟨fun att fs1 h => Export_ret_archive gcm secret fs fs1 entries att haudio hnodup h, ?_⟩
  intro hfaults hlen
  obtain ⟨att, hatt⟩ := Export_total gcm secret fs entries haudio hnodup hfaults hlen
  rw [hatt, Export_ret_archive gcm secret fs (Export gcm secret fs).2 entries att haudio hnodup
    (Prod.ext hatt rfl)]

/-- C7 as amended, on a directory with a sealed blob and a blob that fails the
integrity check. -/
theorem export_archive_entries_witness :
    (Export toyGCM key32 fsTampered).1
      = .ret (some (.archive [("a.m4a", (authenticated toyGCM key32 goodBlob).getD []),
          ("b.m4a", (authenticated toyGCM key32 badBlob).getD [])])) :=
  (export_archive_entries toyGCM key32 fsTampered
    [("a.m4a", goodBlob), ("b.m4a", badBlob)] rfl (by decide) (by decide)).2 rfl
    (fun _ => by decide)

/-- C8 fails on the code: a 3-byte blob makes `DecryptAES` panic inside the
loop, `os.Remove(zipName)` has not been deferred yet, and the archive file
stays in the working directory; when copying a plaintext file into the
archive fails, that plaintext file stays as well, with its content. -/
theorem export_leaves_files :
    (Export toyGCM key32 fsShortBlob).1 = .panic "slice bounds out of range"
      ∧ (Export toyGCM key32 fsShortBlob).2.cwd.map Prod.fst = ["archive.zip"]
      ∧ (Export toyGCM key32 fsCopyFails).1 = .panic "copy failed"
      ∧ (Export toyGCM key32 fsCopyFails).2.cwd.map Prod.fst = ["archive.zip", "a.m4a"]
      ∧ (Export toyGCM key32 fsCopyFails).2.lookup "a.m4a" = some (.bytes [10, 20, 30]) := by
  decide

end Nudgeme
